import Mathlib

/-!
Verification development for the bpx-api-client repository: request
construction and typed marshaling layer.  The definitions below are a
shallow embedding of the Rust sources under src/rust/client and
src/rust/types; strings are modelled as Lean strings, machine integers
(i64, u64, u32) as Int/Nat since none of the embedded code paths can
overflow (they only format values), and the rust_decimal Decimal type is
modelled from the spec (section 4.1) since its source is an external
crate.
-/

namespace Bpx

/-! ## Digit rendering (Rust integer Display: decimal digits, minus sign) -/

/-- Maps a digit value below ten to its ASCII character. -/
def digCh : Nat → Char
  | 0 => '0'
  | 1 => '1'
  | 2 => '2'
  | 3 => '3'
  | 4 => '4'
  | 5 => '5'
  | 6 => '6'
  | 7 => '7'
  | 8 => '8'
  | 9 => '9'
  | _ => '*'

/-- Fuel-indexed big-endian decimal digit rendering of a natural number. -/
def natToCharsAux : Nat → Nat → List Char
  | 0, _ => []
  | fuel + 1, n =>
      if n < 10 then [digCh n]
      else natToCharsAux fuel (n / 10) ++ [digCh (n % 10)]

/-- Decimal digit string of a natural number, as Rust u64 Display renders it. -/
def natToChars (n : Nat) : List Char :=
  natToCharsAux (n + 1) n

/-- Decimal rendering of an integer, as Rust i64 Display renders it. -/
def intToChars (i : Int) : List Char :=
  if i < 0 then '-' :: natToChars i.natAbs else natToChars i.natAbs

theorem digCh_isDigit (d : Nat) (hd : d < 10) : (digCh d).isDigit = true := by
  interval_cases d <;> decide

theorem isDigit_of_mem_natToCharsAux (fuel n : Nat) (c : Char)
    (hc : c ∈ natToCharsAux fuel n) : c.isDigit = true := by
  induction fuel generalizing n with
  | zero => simp [natToCharsAux] at hc
  | succ fuel ih =>
      rw [natToCharsAux] at hc
      split at hc
      · rename_i h
        rcases List.mem_singleton.mp hc with rfl
        exact digCh_isDigit n h
      · rcases List.mem_append.mp hc with h | h
        · exact ih _ h
        · rcases List.mem_singleton.mp h with rfl
          exact digCh_isDigit _ (Nat.mod_lt _ (by omega))

theorem isDigit_of_mem_natToChars (n : Nat) (c : Char)
    (hc : c ∈ natToChars n) : c.isDigit = true :=
  isDigit_of_mem_natToCharsAux _ _ _ hc

theorem natToCharsAux_length_le (fuel n k : Nat) (hn : n < 10 ^ k) :
    (natToCharsAux fuel n).length ≤ max k 1 := by
  induction fuel generalizing n k with
  | zero => simp [natToCharsAux]
  | succ fuel ih =>
      rw [natToCharsAux]
      split
      · simp [Nat.le_max_right]
      · rename_i h
        have hk2 : 2 ≤ k := by
          by_contra hlt
          interval_cases k <;> omega
        have hdiv : n / 10 < 10 ^ (k - 1) := by
          rw [Nat.div_lt_iff_lt_mul (by omega)]
          calc n < 10 ^ k := hn
            _ = 10 ^ (k - 1) * 10 := by
                rw [← Nat.pow_succ]
                congr 1
                omega
        have := ih (n / 10) (k - 1) hdiv
        simp only [List.length_append, List.length_singleton]
        omega

theorem natToChars_length_le (n k : Nat) (hk : 1 ≤ k) (hn : n < 10 ^ k) :
    (natToChars n).length ≤ k := by
  have h := natToCharsAux_length_le (n + 1) n k hn
  rw [Nat.max_eq_left hk] at h
  simpa [natToChars] using h

theorem ne_of_isDigit (c : Char) (h : c.isDigit = true) (d : Char)
    (hd : d.isDigit = false) : c ≠ d := by
  intro heq
  rw [heq, hd] at h
  exact Bool.false_ne_true h

/-! ## Decimal value type

Modelled from the spec: the rust_decimal arbitrary-precision base-10
fixed-point type used for every price/quantity field is an external
crate, so the spec contract (section 4.1) is embedded: a value carries a
mantissa and a scale (count of fractional digits), is constructed from a
decimal string without loss of the original scale, and re-serializes
preserving trailing zeros.  The represented value is
mantissa / 10 ^ scale. -/

structure Decimal where
  mantissa : Int
  scale : Nat
deriving DecidableEq, Repr

/-- Splits a character list at the first dot, if any. -/
def breakDot : List Char → List Char × Option (List Char)
  | [] => ([], none)
  | c :: rest =>
      if c = '.' then ([], some rest)
      else (c :: (breakDot rest).1, (breakDot rest).2)

/-- Numeric value of a digit character. -/
def digVal (c : Char) : Nat := c.toNat - 48

/-- Value of a big-endian digit string. -/
def digitsToNat (l : List Char) : Nat :=
  l.foldl (fun acc c => acc * 10 + digVal c) 0

/-- Parses an unsigned decimal numeral: digits with an optional dot-separated
fractional part.  Modelled from the spec: constructed from a decimal string
without loss of the original scale, failing on malformed numerals. -/
def parseDecAux (l : List Char) : Option Decimal :=
  match breakDot l with
  | (ip, none) =>
      if ip ≠ [] ∧ ip.all Char.isDigit then some ⟨digitsToNat ip, 0⟩ else none
  | (ip, some fp) =>
      if ip ≠ [] ∧ fp ≠ [] ∧ ip.all Char.isDigit ∧ fp.all Char.isDigit then
        some ⟨digitsToNat (ip ++ fp), fp.length⟩
      else none

/-- Parses a decimal string (optional leading minus sign). -/
def parseDecimal (s : String) : Option Decimal :=
  match s.data with
  | '-' :: rest => (parseDecAux rest).map (fun d => ⟨-d.mantissa, d.scale⟩)
  | l => parseDecAux l

/-- Left-pads a digit string with zeros to the given width. -/
def padZeros (k : Nat) (l : List Char) : List Char :=
  List.replicate (k - l.length) '0' ++ l

/-- Renders a decimal value, emitting exactly `scale` fractional digits. -/
def serializeChars (d : Decimal) : List Char :=
  (if d.mantissa < 0 then ['-'] else []) ++
    (if d.scale = 0 then natToChars d.mantissa.natAbs
     else
       natToChars (d.mantissa.natAbs / 10 ^ d.scale) ++
         '.' :: padZeros d.scale (natToChars (d.mantissa.natAbs % 10 ^ d.scale)))

/-- String form of a decimal value, as rust_decimal Display renders it. -/
def serializeDecimal (d : Decimal) : String :=
  ⟨serializeChars d⟩

/-- Count of fractional digits of a rendered decimal string: the characters
after the last dot, zero when there is no dot. -/
def fracCountChars (l : List Char) : Nat :=
  if l.contains '.' then (l.reverse.takeWhile (fun c => c != '.')).length else 0

/-! ## Lemmas about parsing and serialization of decimals -/

theorem breakDot_cases (l : List Char) :
    (∀ ip r, breakDot l = (ip, some r) → l = ip ++ '.' :: r ∧ '.' ∉ ip) ∧
      (∀ ip, breakDot l = (ip, none) → l = ip ∧ '.' ∉ ip) := by
  induction l with
  | nil =>
      constructor
      · intro ip r h
        simp [breakDot] at h
      · intro ip h
        rw [breakDot] at h
        simp only [Prod.mk.injEq] at h
        exact ⟨h.1, by simp [← h.1]⟩
  | cons c rest ih =>
      obtain ⟨⟨bip, bfp⟩, hbr⟩ : ∃ p, breakDot rest = p := ⟨breakDot rest, rfl⟩
      constructor
      · intro ip r h
        rw [breakDot, hbr] at h
        split at h
        · rename_i hc
          simp only [Prod.mk.injEq, Option.some.injEq] at h
          subst hc
          rw [← h.1, ← h.2]
          exact ⟨rfl, by simp⟩
        · rename_i hc
          simp only [Prod.mk.injEq] at h
          obtain ⟨h1, h2⟩ := h
          subst h2
          have hsub := ih.1 bip r hbr
          rw [← h1, hsub.1]
          refine ⟨rfl, ?_⟩
          simp only [List.mem_cons, not_or]
          exact ⟨fun hcc => hc hcc.symm, hsub.2⟩
      · intro ip h
        rw [breakDot, hbr] at h
        split at h
        · simp at h
        · rename_i hc
          simp only [Prod.mk.injEq] at h
          obtain ⟨h1, h2⟩ := h
          subst h2
          have hsub := ih.2 bip hbr
          rw [← h1, hsub.1]
          refine ⟨rfl, ?_⟩
          simp only [List.mem_cons, not_or]
          exact ⟨fun hcc => hc hcc.symm, hsub.2⟩

theorem takeWhile_append_stop (p : Char → Bool) (a : List Char) (c : Char)
    (b : List Char) (ha : ∀ x ∈ a, p x = true) (hc : p c = false) :
    (a ++ c :: b).takeWhile p = a := by
  induction a with
  | nil => simp [List.takeWhile_cons, hc]
  | cons x xs ih =>
      simp only [List.cons_append, List.takeWhile_cons]
      rw [ha x (by simp)]
      simp only [if_true]
      rw [ih (fun y hy => ha y (by simp [hy]))]

theorem fracCountChars_no_dot (l : List Char) (h : '.' ∉ l) :
    fracCountChars l = 0 := by
  rw [fracCountChars, if_neg (by simp [h])]

theorem fracCountChars_dotted (a b : List Char) (hb : '.' ∉ b) :
    fracCountChars (a ++ '.' :: b) = b.length := by
  rw [fracCountChars, if_pos (by simp)]
  rw [List.reverse_append, List.reverse_cons, List.append_assoc, List.singleton_append]
  rw [takeWhile_append_stop _ _ '.' _ ?stop (by simp)]
  · simp
  case stop =>
    intro x hx
    have hxb : x ≠ '.' := fun hxx => hb (hxx ▸ List.mem_reverse.mp hx)
    simpa using hxb

theorem parseDecAux_scale (l : List Char) (d : Decimal)
    (h : parseDecAux l = some d) : fracCountChars l = d.scale := by
  rw [parseDecAux] at h
  split at h
  · rename_i ip heq
    split at h
    · cases h
      obtain ⟨rfl, hnd⟩ := (breakDot_cases l).2 ip heq
      exact fracCountChars_no_dot _ hnd
    · cases h
  · rename_i ip fp heq
    split at h
    · rename_i hcond
      cases h
      obtain ⟨rfl, _⟩ := (breakDot_cases l).1 ip fp heq
      have hfpd : ∀ c ∈ fp, c.isDigit = true := by
        have hall := hcond.2.2.2
        simpa [List.all_eq_true] using hall
      have hnd : '.' ∉ fp := fun hm => by
        have hdig := hfpd _ hm
        simp [Char.isDigit] at hdig
      exact fracCountChars_dotted _ _ hnd
    · cases h

theorem takeWhile_append_of_stop (p : Char → Bool) (a b : List Char)
    (h : ∃ x ∈ a, p x = false) : (a ++ b).takeWhile p = a.takeWhile p := by
  induction a with
  | nil => simp at h
  | cons x xs ih =>
      simp only [List.cons_append, List.takeWhile_cons]
      cases hx : p x
      · rfl
      · simp only [if_true]
        obtain ⟨y, hy, hpy⟩ := h
        rcases List.mem_cons.mp hy with rfl | hyxs
        · rw [hx] at hpy
          cases hpy
        · rw [ih ⟨y, hyxs, hpy⟩]

theorem fracCountChars_cons_of_ne_dot (c : Char) (rest : List Char)
    (hc : c ≠ '.') : fracCountChars (c :: rest) = fracCountChars rest := by
  by_cases hm : '.' ∈ rest
  · rw [fracCountChars, fracCountChars, if_pos (by simp [hm]), if_pos (by simp [hm])]
    rw [List.reverse_cons]
    rw [takeWhile_append_of_stop _ _ _ ⟨'.', List.mem_reverse.mpr hm, by simp⟩]
  · rw [fracCountChars_no_dot _ (by simp [hm, Ne.symm hc]), fracCountChars_no_dot _ hm]

theorem parseDecimal_scale (s : String) (d : Decimal)
    (h : parseDecimal s = some d) : fracCountChars s.data = d.scale := by
  rw [parseDecimal] at h
  split at h
  · rename_i rest heq
    rw [Option.map_eq_some'] at h
    obtain ⟨d0, hd0, rfl⟩ := h
    rw [heq, fracCountChars_cons_of_ne_dot _ _ (by decide)]
    exact parseDecAux_scale rest d0 hd0
  · exact parseDecAux_scale _ _ h

theorem padZeros_length (k : Nat) (l : List Char) (h : l.length ≤ k) :
    (padZeros k l).length = k := by
  rw [padZeros, List.length_append, List.length_replicate]
  omega

theorem mem_padZeros (k : Nat) (l : List Char) (c : Char)
    (hc : c ∈ padZeros k l) : c = '0' ∨ c ∈ l := by
  rw [padZeros] at hc
  rcases List.mem_append.mp hc with h | h
  · exact Or.inl (List.eq_of_mem_replicate h)
  · exact Or.inr h

theorem serializeChars_frac (d : Decimal) :
    fracCountChars (serializeChars d) = d.scale := by
  rw [serializeChars]
  by_cases hs : d.scale = 0
  · rw [if_pos hs, hs]
    apply fracCountChars_no_dot
    intro hm
    rcases List.mem_append.mp hm with h | h
    · split at h <;> simp at h
    · exact absurd rfl
        (ne_of_isDigit _ (isDigit_of_mem_natToChars _ _ h) '.' (by decide))
  · rw [if_neg hs]
    have hlen : (natToChars (d.mantissa.natAbs % 10 ^ d.scale)).length ≤ d.scale :=
      natToChars_length_le _ _ (by omega)
        (Nat.mod_lt _ (Nat.pos_pow_of_pos _ (by omega)))
    have hfr : '.' ∉ padZeros d.scale (natToChars (d.mantissa.natAbs % 10 ^ d.scale)) := by
      intro hm
      rcases mem_padZeros _ _ _ hm with h | h
      · cases h
      · exact absurd rfl
          (ne_of_isDigit _ (isDigit_of_mem_natToChars _ _ h) '.' (by decide))
    rw [← List.append_assoc]
    rw [fracCountChars_dotted _ _ hfr]
    exact padZeros_length _ _ hlen

/-! ## Wire enumerations

Embedded from the strum Display / EnumString derivations on the Rust
enums: every variant carries one canonical wire string (PascalCase for
status and reason enumerations, UPPERCASE for market type), decoding is
lookup in the table and fails on any other string. -/

/-- Table-driven wire decoding, as strum EnumString generates it. -/
def decodeTable {α : Type} (tbl : List (String × α)) (s : String) : Option α :=
  (tbl.find? (fun p => p.1 == s)).map (fun p => p.2)

theorem decodeTable_sound {α : Type} (tbl : List (String × α)) (enc : α → String)
    (henc : ∀ p ∈ tbl, enc p.2 = p.1) (s : String) (v : α)
    (h : decodeTable tbl s = some v) : enc v = s := by
  rw [decodeTable, Option.map_eq_some'] at h
  obtain ⟨p, hp, rfl⟩ := h
  have hmem := List.mem_of_find?_eq_some hp
  have hbeq := List.find?_some hp
  have hps : p.1 = s := by simpa using hbeq
  rw [henc p hmem, hps]

theorem decodeTable_unknown {α : Type} (tbl : List (String × α)) (enc : α → String)
    (henc : ∀ p ∈ tbl, enc p.2 = p.1) (s : String) (hs : ∀ v : α, enc v ≠ s) :
    decodeTable tbl s = none := by
  cases h : decodeTable tbl s with
  | none => rfl
  | some v => exact absurd (decodeTable_sound tbl enc henc s v h) (hs v)

/-- FillType enum of src/rust/types/src/history.rs. -/
inductive FillType
  | User
  | BookLiquidation
  | Adl
  | Backstop
  | Liquidation
  | AllLiquidation
  | CollateralConversion
  | CollateralConversionAndSpotLiquidation
deriving DecidableEq, Repr, Fintype

def FillType.toWire : FillType → String
  | .User => "User"
  | .BookLiquidation => "BookLiquidation"
  | .Adl => "Adl"
  | .Backstop => "Backstop"
  | .Liquidation => "Liquidation"
  | .AllLiquidation => "AllLiquidation"
  | .CollateralConversion => "CollateralConversion"
  | .CollateralConversionAndSpotLiquidation => "CollateralConversionAndSpotLiquidation"

def FillType.wireTable : List (String × FillType) :=
  [("User", .User), ("BookLiquidation", .BookLiquidation), ("Adl", .Adl),
   ("Backstop", .Backstop), ("Liquidation", .Liquidation),
   ("AllLiquidation", .AllLiquidation),
   ("CollateralConversion", .CollateralConversion),
   ("CollateralConversionAndSpotLiquidation", .CollateralConversionAndSpotLiquidation)]

def FillType.fromWire (s : String) : Option FillType :=
  decodeTable FillType.wireTable s

theorem fillType_wire_sound :
    ∀ p ∈ FillType.wireTable, FillType.toWire p.2 = p.1 := by decide

/-- SystemOrderType enum of src/rust/types/src/history.rs. -/
inductive SystemOrderType
  | CollateralConversion
  | FutureExpiry
  | LiquidatePositionOnAdl
  | LiquidatePositionOnBook
  | LiquidatePositionOnBackstop
  | OrderBookClosed
deriving DecidableEq, Repr, Fintype

def SystemOrderType.toWire : SystemOrderType → String
  | .CollateralConversion => "CollateralConversion"
  | .FutureExpiry => "FutureExpiry"
  | .LiquidatePositionOnAdl => "LiquidatePositionOnAdl"
  | .LiquidatePositionOnBook => "LiquidatePositionOnBook"
  | .LiquidatePositionOnBackstop => "LiquidatePositionOnBackstop"
  | .OrderBookClosed => "OrderBookClosed"

def SystemOrderType.wireTable : List (String × SystemOrderType) :=
  [("CollateralConversion", .CollateralConversion), ("FutureExpiry", .FutureExpiry),
   ("LiquidatePositionOnAdl", .LiquidatePositionOnAdl),
   ("LiquidatePositionOnBook", .LiquidatePositionOnBook),
   ("LiquidatePositionOnBackstop", .LiquidatePositionOnBackstop),
   ("OrderBookClosed", .OrderBookClosed)]

def SystemOrderType.fromWire (s : String) : Option SystemOrderType :=
  decodeTable SystemOrderType.wireTable s

theorem systemOrderType_wire_sound :
    ∀ p ∈ SystemOrderType.wireTable, SystemOrderType.toWire p.2 = p.1 := by decide

/-- OrderExpiryReason enum of src/rust/types/src/history.rs. -/
inductive OrderExpiryReason
  | AccountTradingSuspended
  | BorrowRequiresLendRedeem
  | FillOrKill
  | InsufficientBorrowableQuantity
  | InsufficientFunds
  | InsufficientLiquidity
  | InvalidPrice
  | InvalidQuantity
  | ImmediateOrCancel
  | InsufficientMargin
  | Liquidation
  | NegativeEquity
  | PostOnlyMode
  | PostOnlyTaker
  | PriceOutOfBounds
  | ReduceOnlyNotReduced
  | SelfTradePrevention
  | StopWithoutPosition
  | PriceImpact
  | Unknown
  | UserPermissions
  | MaxStopOrdersPerPosition
  | PositionLimit
  | SlippageToleranceExceeded
deriving DecidableEq, Repr, Fintype

def OrderExpiryReason.toWire : OrderExpiryReason → String
  | .AccountTradingSuspended => "AccountTradingSuspended"
  | .BorrowRequiresLendRedeem => "BorrowRequiresLendRedeem"
  | .FillOrKill => "FillOrKill"
  | .InsufficientBorrowableQuantity => "InsufficientBorrowableQuantity"
  | .InsufficientFunds => "InsufficientFunds"
  | .InsufficientLiquidity => "InsufficientLiquidity"
  | .InvalidPrice => "InvalidPrice"
  | .InvalidQuantity => "InvalidQuantity"
  | .ImmediateOrCancel => "ImmediateOrCancel"
  | .InsufficientMargin => "InsufficientMargin"
  | .Liquidation => "Liquidation"
  | .NegativeEquity => "NegativeEquity"
  | .PostOnlyMode => "PostOnlyMode"
  | .PostOnlyTaker => "PostOnlyTaker"
  | .PriceOutOfBounds => "PriceOutOfBounds"
  | .ReduceOnlyNotReduced => "ReduceOnlyNotReduced"
  | .SelfTradePrevention => "SelfTradePrevention"
  | .StopWithoutPosition => "StopWithoutPosition"
  | .PriceImpact => "PriceImpact"
  | .Unknown => "Unknown"
  | .UserPermissions => "UserPermissions"
  | .MaxStopOrdersPerPosition => "MaxStopOrdersPerPosition"
  | .PositionLimit => "PositionLimit"
  | .SlippageToleranceExceeded => "SlippageToleranceExceeded"

def OrderExpiryReason.wireTable : List (String × OrderExpiryReason) :=
  [("AccountTradingSuspended", .AccountTradingSuspended),
   ("BorrowRequiresLendRedeem", .BorrowRequiresLendRedeem),
   ("FillOrKill", .FillOrKill),
   ("InsufficientBorrowableQuantity", .InsufficientBorrowableQuantity),
   ("InsufficientFunds", .InsufficientFunds),
   ("InsufficientLiquidity", .InsufficientLiquidity),
   ("InvalidPrice", .InvalidPrice),
   ("InvalidQuantity", .InvalidQuantity),
   ("ImmediateOrCancel", .ImmediateOrCancel),
   ("InsufficientMargin", .InsufficientMargin),
   ("Liquidation", .Liquidation),
   ("NegativeEquity", .NegativeEquity),
   ("PostOnlyMode", .PostOnlyMode),
   ("PostOnlyTaker", .PostOnlyTaker),
   ("PriceOutOfBounds", .PriceOutOfBounds),
   ("ReduceOnlyNotReduced", .ReduceOnlyNotReduced),
   ("SelfTradePrevention", .SelfTradePrevention),
   ("StopWithoutPosition", .StopWithoutPosition),
   ("PriceImpact", .PriceImpact),
   ("Unknown", .Unknown),
   ("UserPermissions", .UserPermissions),
   ("MaxStopOrdersPerPosition", .MaxStopOrdersPerPosition),
   ("PositionLimit", .PositionLimit),
   ("SlippageToleranceExceeded", .SlippageToleranceExceeded)]

def OrderExpiryReason.fromWire (s : String) : Option OrderExpiryReason :=
  decodeTable OrderExpiryReason.wireTable s

theorem orderExpiryReason_wire_sound :
    ∀ p ∈ OrderExpiryReason.wireTable, OrderExpiryReason.toWire p.2 = p.1 := by decide

/-- MarketType enum of src/rust/types/src/markets.rs (UPPERCASE wire form). -/
inductive MarketType
  | Spot
  | Perp
  | Iperp
  | Dated
  | Prediction
  | Rfq
deriving DecidableEq, Repr, Fintype

def MarketType.toWire : MarketType → String
  | .Spot => "SPOT"
  | .Perp => "PERP"
  | .Iperp => "IPERP"
  | .Dated => "DATED"
  | .Prediction => "PREDICTION"
  | .Rfq => "RFQ"

def MarketType.wireTable : List (String × MarketType) :=
  [("SPOT", .Spot), ("PERP", .Perp), ("IPERP", .Iperp), ("DATED", .Dated),
   ("PREDICTION", .Prediction), ("RFQ", .Rfq)]

def MarketType.fromWire (s : String) : Option MarketType :=
  decodeTable MarketType.wireTable s

theorem marketType_wire_sound :
    ∀ p ∈ MarketType.wireTable, MarketType.toWire p.2 = p.1 := by decide

/-- SortDirection enum of src/rust/types/src/strategies.rs. -/
inductive SortDirection
  | Asc
  | Desc
deriving DecidableEq, Repr, Fintype

def SortDirection.toWire : SortDirection → String
  | .Asc => "Asc"
  | .Desc => "Desc"

def SortDirection.wireTable : List (String × SortDirection) :=
  [("Asc", .Asc), ("Desc", .Desc)]

def SortDirection.fromWire (s : String) : Option SortDirection :=
  decodeTable SortDirection.wireTable s

theorem sortDirection_wire_sound :
    ∀ p ∈ SortDirection.wireTable, SortDirection.toWire p.2 = p.1 := by decide

/-! ## Search-parameter structures (src/rust/types/src/history.rs,
src/rust/types/src/strategies.rs)

The Rust fields `from` and `to` are spelled `from_` and `to_` here
because both are Lean keywords; every other field keeps its source
name.  i64 timestamps are
Int, u64 limits/offsets are Nat. -/

structure FillHistorySearchParams where
  order_id : Option String
  strategy_id : Option String
  from_ : Option Int
  to_ : Option Int
  symbol : Option String
  limit : Option Nat
  offset : Option Nat
  fill_type : Option FillType
  market_type : Option MarketType
  sort_direction : Option SortDirection
deriving DecidableEq, Repr

structure OrderHistorySearchParams where
  order_id : Option String
  strategy_id : Option String
  symbol : Option String
  limit : Option Nat
  offset : Option Nat
  market_type : Option MarketType
  sort_direction : Option SortDirection
deriving DecidableEq, Repr

structure StrategyHistorySearchParams where
  strategy_id : Option String
  symbol : Option String
  limit : Option Nat
  offset : Option Nat
  market_type : Option MarketType
  sort_direction : Option SortDirection
deriving DecidableEq, Repr

/-! ## Query encoder

Each history route in src/rust/client/src/routes pushes one
key=value string per set optional field, in declared field order, then
joins with ampersands and prefixes a question mark unless empty.  A
QField records one conditional push: the key and the rendered value, if
the field was set. -/

structure QField where
  key : List Char
  entry : Option (List Char)

/-- The pushed key=value parts, in field order: one per set field. -/
def qparts (fs : List QField) : List (List Char) :=
  fs.filterMap (fun f => f.entry.map (fun v => f.key ++ '=' :: v))

/-- Joining with ampersand separators, as Vec::join does. -/
def joinAmp : List (List Char) → List Char
  | [] => []
  | [p] => p
  | p :: q :: ps => p ++ '&' :: joinAmp (q :: ps)

/-- Empty string when no parameter is set, otherwise question mark plus
the joined parts. -/
def queryChars (parts : List (List Char)) : List Char :=
  if parts = [] then [] else '?' :: joinAmp parts

/-- Conditional pushes of get_fill_history
(src/rust/client/src/routes/history.rs), in source order. -/
def fillQFields (p : FillHistorySearchParams) : List QField :=
  [⟨("order_id").data, p.order_id.map String.data⟩,
   ⟨("strategy_id").data, p.strategy_id.map String.data⟩,
   ⟨("from").data, p.from_.map intToChars⟩,
   ⟨("to").data, p.to_.map intToChars⟩,
   ⟨("symbol").data, p.symbol.map String.data⟩,
   ⟨("limit").data, p.limit.map natToChars⟩,
   ⟨("offset").data, p.offset.map natToChars⟩,
   ⟨("fill_type").data, p.fill_type.map (fun t => (FillType.toWire t).data)⟩,
   ⟨("market_type").data, p.market_type.map (fun t => (MarketType.toWire t).data)⟩,
   ⟨("sort_direction").data, p.sort_direction.map (fun t => (SortDirection.toWire t).data)⟩]

/-- Conditional pushes of get_order_history
(src/rust/client/src/routes/history.rs), in source order. -/
def orderQFields (p : OrderHistorySearchParams) : List QField :=
  [⟨("order_id").data, p.order_id.map String.data⟩,
   ⟨("strategy_id").data, p.strategy_id.map String.data⟩,
   ⟨("symbol").data, p.symbol.map String.data⟩,
   ⟨("limit").data, p.limit.map natToChars⟩,
   ⟨("offset").data, p.offset.map natToChars⟩,
   ⟨("market_type").data, p.market_type.map (fun t => (MarketType.toWire t).data)⟩,
   ⟨("sort_direction").data, p.sort_direction.map (fun t => (SortDirection.toWire t).data)⟩]

/-- Conditional pushes of get_strategy_history
(src/rust/client/src/routes/strategies.rs), in source order. -/
def strategyQFields (p : StrategyHistorySearchParams) : List QField :=
  [⟨("strategy_id").data, p.strategy_id.map String.data⟩,
   ⟨("symbol").data, p.symbol.map String.data⟩,
   ⟨("limit").data, p.limit.map natToChars⟩,
   ⟨("offset").data, p.offset.map natToChars⟩,
   ⟨("market_type").data, p.market_type.map (fun t => (MarketType.toWire t).data)⟩,
   ⟨("sort_direction").data, p.sort_direction.map (fun t => (SortDirection.toWire t).data)⟩]

def fillQueryString (p : FillHistorySearchParams) : String :=
  ⟨queryChars (qparts (fillQFields p))⟩

def orderQueryString (p : OrderHistorySearchParams) : String :=
  ⟨queryChars (qparts (orderQFields p))⟩

def strategyQueryString (p : StrategyHistorySearchParams) : String :=
  ⟨queryChars (qparts (strategyQFields p))⟩

/-! ## Endpoint catalog and URL construction -/

def API_FILL_HISTORY : String := "/wapi/v1/history/fills"

def API_ORDER_HISTORY : String := "/wapi/v1/history/orders"

def API_STRATEGY_HISTORY : String := "/wapi/v1/history/strategies"

def API_FUTURES_POSITION : String := "/api/v1/position"

def API_DEPTH : String := "/api/v1/depth"

def API_ACCOUNT_MAX_ORDER : String := "/api/v1/account/limits/order"

def get_fill_history_url (base : String) (p : FillHistorySearchParams) : String :=
  base ++ API_FILL_HISTORY ++ fillQueryString p

def get_order_history_url (base : String) (p : OrderHistorySearchParams) : String :=
  base ++ API_ORDER_HISTORY ++ orderQueryString p

def get_strategy_history_url (base : String) (p : StrategyHistorySearchParams) : String :=
  base ++ API_STRATEGY_HISTORY ++ strategyQueryString p

/-- URL of get_open_future_positions (src/rust/client/src/routes/futures.rs):
the symbol query is appended only when the parameter is given. -/
def get_open_future_positions_url (base : String) (symbol : Option String) : String :=
  base ++ API_FUTURES_POSITION ++
    (match symbol with
     | some s => "?symbol=" ++ s
     | none => "")

/-- URL of get_order_book_depth (src/rust/client/src/routes/markets.rs). -/
def get_order_book_depth_url (base : String) (symbol : String) : String :=
  base ++ API_DEPTH ++ "?symbol=" ++ symbol

/-- Rust bool Display. -/
def boolToStr : Bool → String
  | true => "true"
  | false => "false"

/-- Query of get_account_max_order_quantity
(src/rust/client/src/routes/account.rs): mandatory symbol and side, then
conditional camelCase parameters appended in source order.  The side
argument is the already-rendered Side wire string (the Side enum lives
in the crate root, outside src). -/
def get_account_max_order_quantity_query (symbol side : String)
    (price : Option Decimal) (reduce_only auto_borrow auto_borrow_repay
    auto_lend_redeem : Option Bool) : String :=
  "?symbol=" ++ symbol ++ "&side=" ++ side ++
    (match price with
     | some p => "&price=" ++ serializeDecimal p
     | none => "") ++
    (match reduce_only with
     | some b => "&reduceOnly=" ++ boolToStr b
     | none => "") ++
    (match auto_borrow with
     | some b => "&autoBorrow=" ++ boolToStr b
     | none => "") ++
    (match auto_borrow_repay with
     | some b => "&autoBorrowRepay=" ++ boolToStr b
     | none => "") ++
    (match auto_lend_redeem with
     | some b => "&autoLendRedeem=" ++ boolToStr b
     | none => "")

/-! ## Server-observed key extraction

Model of how a server reads a query string (spec sections 4.4, 6, 8):
drop the leading question mark, split on ampersands, and take each
part's prefix before the first equals sign as its key. -/

/-- Splits a character list on ampersands. -/
def splitAmp : List Char → List (List Char)
  | [] => [[]]
  | c :: rest =>
      match splitAmp rest with
      | [] => [[c]]
      | h :: t => if c = '&' then [] :: h :: t else (c :: h) :: t

/-- Keys a server observes in an encoded query string. -/
def extractKeysChars (q : List Char) : List (List Char) :=
  match q with
  | [] => []
  | '?' :: rest => (splitAmp rest).map (fun part => part.takeWhile (fun c => c != '='))
  | other => (splitAmp other).map (fun part => part.takeWhile (fun c => c != '='))

theorem splitAmp_ne_nil (l : List Char) : splitAmp l ≠ [] := by
  cases l with
  | nil => simp [splitAmp]
  | cons c rest =>
      rw [splitAmp]
      cases h : splitAmp rest with
      | nil => simp
      | cons a b => by_cases hc : c = '&' <;> simp [hc]

theorem splitAmp_no_amp (l : List Char) (h : '&' ∉ l) : splitAmp l = [l] := by
  induction l with
  | nil => rfl
  | cons c rest ih =>
      have hc : c ≠ '&' := fun hcc => h (by simp [hcc])
      have hrest : '&' ∉ rest := fun hm => h (by simp [hm])
      rw [splitAmp, ih hrest]
      simp [hc]

theorem splitAmp_append (l r : List Char) (h : '&' ∉ l) :
    splitAmp (l ++ '&' :: r) = l :: splitAmp r := by
  induction l with
  | nil =>
      rw [List.nil_append, splitAmp]
      cases hs : splitAmp r with
      | nil => exact absurd hs (splitAmp_ne_nil r)
      | cons a b => simp
  | cons c xs ih =>
      have hc : c ≠ '&' := fun hcc => h (by simp [hcc])
      have hxs : '&' ∉ xs := fun hm => h (by simp [hm])
      rw [List.cons_append, splitAmp, ih hxs]
      simp [hc]

theorem splitAmp_joinAmp (parts : List (List Char)) (hne : parts ≠ [])
    (hamp : ∀ p ∈ parts, '&' ∉ p) : splitAmp (joinAmp parts) = parts := by
  induction parts with
  | nil => exact absurd rfl hne
  | cons p ps ih =>
      cases ps with
      | nil => exact splitAmp_no_amp p (hamp p (by simp))
      | cons q qs =>
          rw [joinAmp, splitAmp_append _ _ (hamp p (by simp))]
          rw [ih (by simp) (fun x hx => hamp x (by simp [hx]))]

theorem qparts_mem (fs : List QField) (part : List Char) (h : part ∈ qparts fs) :
    ∃ f ∈ fs, ∃ v, f.entry = some v ∧ part = f.key ++ '=' :: v := by
  rw [qparts, List.mem_filterMap] at h
  obtain ⟨f, hf, hmap⟩ := h
  rw [Option.map_eq_some'] at hmap
  obtain ⟨v, hv, rfl⟩ := hmap
  exact ⟨f, hf, v, hv, rfl⟩

theorem qparts_keys (fs : List QField) (hkey : ∀ f ∈ fs, '=' ∉ f.key) :
    (qparts fs).map (fun part => part.takeWhile (fun c => c != '=')) =
      (fs.filter (fun f => f.entry.isSome)).map (fun f => f.key) := by
  induction fs with
  | nil => rfl
  | cons f fs ih =>
      have hstep := ih (fun g hg => hkey g (by simp [hg]))
      cases hfe : f.entry with
      | none =>
          rw [qparts, List.filterMap_cons, hfe, List.filter_cons]
          simp only [hfe, Option.isSome_none, Bool.false_eq_true, if_false]
          exact hstep
      | some v =>
          rw [qparts, List.filterMap_cons, hfe, List.filter_cons]
          simp only [hfe, Option.map_some', Option.isSome_some, if_true, List.map_cons]
          rw [takeWhile_append_stop _ _ '=' _ ?keyok (by simp)]
          · rw [← hstep]
            rfl
          case keyok =>
            intro x hx
            have hxk : x ≠ '=' := fun hxx => hkey f (by simp) (hxx ▸ hx)
            simpa using hxk

theorem extractKeys_queryChars (fs : List QField)
    (hkey : ∀ f ∈ fs, '&' ∉ f.key ∧ '=' ∉ f.key)
    (hval : ∀ f ∈ fs, ∀ v, f.entry = some v → '&' ∉ v) :
    extractKeysChars (queryChars (qparts fs)) =
      (fs.filter (fun f => f.entry.isSome)).map (fun f => f.key) := by
  by_cases hq : qparts fs = []
  · rw [queryChars, if_pos hq]
    have hnone : ∀ f ∈ fs, f.entry = none := by
      intro f hf
      have hn := List.filterMap_eq_nil_iff.mp hq f hf
      cases hfe : f.entry with
      | none => rfl
      | some v =>
          rw [hfe] at hn
          simp at hn
    rw [List.filter_eq_nil_iff.mpr (fun f hf => by rw [hnone f hf]; simp)]
    rfl
  · have hamp : ∀ part ∈ qparts fs, '&' ∉ part := by
      intro part hp
      obtain ⟨f, hf, v, hv, rfl⟩ := qparts_mem fs part hp
      intro hm
      rcases List.mem_append.mp hm with h | h
      · exact (hkey f hf).1 h
      · rcases List.mem_cons.mp h with h | h
        · cases h
        · exact hval f hf v hv h
    rw [queryChars, if_neg hq]
    have hred : extractKeysChars ('?' :: joinAmp (qparts fs)) =
        (splitAmp (joinAmp (qparts fs))).map
          (fun part => part.takeWhile (fun c => c != '=')) := rfl
    rw [hred, splitAmp_joinAmp _ hq hamp]
    exact qparts_keys fs (fun f hf => (hkey f hf).2)

/-! ## Per-endpoint key sets -/

theorem amp_not_mem_natToChars (n : Nat) : '&' ∉ natToChars n := by
  intro hm
  have hd := isDigit_of_mem_natToChars n '&' hm
  exact absurd hd (by decide)

theorem amp_not_mem_intToChars (i : Int) : '&' ∉ intToChars i := by
  intro hm
  rw [intToChars] at hm
  split at hm
  · rcases List.mem_cons.mp hm with h | h
    · cases h
    · exact amp_not_mem_natToChars _ h
  · exact amp_not_mem_natToChars _ hm

theorem fillType_amp_free (t : FillType) : '&' ∉ (FillType.toWire t).data := by
  cases t <;> decide

theorem marketType_amp_free (t : MarketType) : '&' ∉ (MarketType.toWire t).data := by
  cases t <;> decide

theorem sortDirection_amp_free (t : SortDirection) :
    '&' ∉ (SortDirection.toWire t).data := by
  cases t <;> decide

theorem filter_keys_cons (k : List Char) (e : Option (List Char)) (fs : List QField) :
    ((({ key := k, entry := e } : QField) :: fs).filter
        (fun f => f.entry.isSome)).map (fun f => f.key) =
      (if e.isSome then [k] else []) ++
        (fs.filter (fun f => f.entry.isSome)).map (fun f => f.key) := by
  cases e <;> simp [List.filter_cons]

/-- The keys of get_fill_history, in declared field order, restricted to
the fields the caller set. -/
def fillSetKeys (p : FillHistorySearchParams) : List (List Char) :=
  (if p.order_id.isSome then [("order_id").data] else []) ++
    (if p.strategy_id.isSome then [("strategy_id").data] else []) ++
    (if p.from_.isSome then [("from").data] else []) ++
    (if p.to_.isSome then [("to").data] else []) ++
    (if p.symbol.isSome then [("symbol").data] else []) ++
    (if p.limit.isSome then [("limit").data] else []) ++
    (if p.offset.isSome then [("offset").data] else []) ++
    (if p.fill_type.isSome then [("fill_type").data] else []) ++
    (if p.market_type.isSome then [("market_type").data] else []) ++
    (if p.sort_direction.isSome then [("sort_direction").data] else [])

/-- The keys of get_order_history, in declared field order, restricted to
the fields the caller set. -/
def orderSetKeys (p : OrderHistorySearchParams) : List (List Char) :=
  (if p.order_id.isSome then [("order_id").data] else []) ++
    (if p.strategy_id.isSome then [("strategy_id").data] else []) ++
    (if p.symbol.isSome then [("symbol").data] else []) ++
    (if p.limit.isSome then [("limit").data] else []) ++
    (if p.offset.isSome then [("offset").data] else []) ++
    (if p.market_type.isSome then [("market_type").data] else []) ++
    (if p.sort_direction.isSome then [("sort_direction").data] else [])

/-- The keys of get_strategy_history, in declared field order, restricted
to the fields the caller set. -/
def strategySetKeys (p : StrategyHistorySearchParams) : List (List Char) :=
  (if p.strategy_id.isSome then [("strategy_id").data] else []) ++
    (if p.symbol.isSome then [("symbol").data] else []) ++
    (if p.limit.isSome then [("limit").data] else []) ++
    (if p.offset.isSome then [("offset").data] else []) ++
    (if p.market_type.isSome then [("market_type").data] else []) ++
    (if p.sort_direction.isSome then [("sort_direction").data] else [])

theorem fillKeys_eq (p : FillHistorySearchParams) :
    ((fillQFields p).filter (fun f => f.entry.isSome)).map (fun f => f.key) =
      fillSetKeys p := by
  simp only [fillQFields, filter_keys_cons, Option.isSome_map', List.filter_nil,
    List.map_nil, List.append_nil, fillSetKeys, List.append_assoc]

theorem orderKeys_eq (p : OrderHistorySearchParams) :
    ((orderQFields p).filter (fun f => f.entry.isSome)).map (fun f => f.key) =
      orderSetKeys p := by
  simp only [orderQFields, filter_keys_cons, Option.isSome_map', List.filter_nil,
    List.map_nil, List.append_nil, orderSetKeys, List.append_assoc]

theorem strategyKeys_eq (p : StrategyHistorySearchParams) :
    ((strategyQFields p).filter (fun f => f.entry.isSome)).map (fun f => f.key) =
      strategySetKeys p := by
  simp only [strategyQFields, filter_keys_cons, Option.isSome_map', List.filter_nil,
    List.map_nil, List.append_nil, strategySetKeys, List.append_assoc]

/-- Decidable side condition: a set string field contains no ampersand. -/
def optStrNoAmp (o : Option String) : Bool :=
  match o with
  | none => true
  | some s => decide ('&' ∉ s.data)

theorem optStrNoAmp_spec (o : Option String) (h : optStrNoAmp o = true)
    (v : String) (hv : o = some v) : '&' ∉ v.data := by
  subst hv
  rw [optStrNoAmp] at h
  exact of_decide_eq_true h

theorem fill_extract_keys (p : FillHistorySearchParams)
    (h1 : optStrNoAmp p.order_id = true) (h2 : optStrNoAmp p.strategy_id = true)
    (h3 : optStrNoAmp p.symbol = true) :
    extractKeysChars (queryChars (qparts (fillQFields p))) = fillSetKeys p := by
  rw [extractKeys_queryChars (fillQFields p) ?hkey ?hval, fillKeys_eq]
  case hkey =>
    intro f hf
    simp only [fillQFields, List.mem_cons, List.not_mem_nil, or_false] at hf
    rcases hf with rfl | rfl | rfl | rfl | rfl | rfl | rfl | rfl | rfl | rfl <;>
      exact ⟨by dsimp only; decide, by dsimp only; decide⟩
  case hval =>
    intro f hf v hv
    simp only [fillQFields, List.mem_cons, List.not_mem_nil, or_false] at hf
    rcases hf with rfl | rfl | rfl | rfl | rfl | rfl | rfl | rfl | rfl | rfl
    · obtain ⟨sv, hs, rfl⟩ := Option.map_eq_some'.mp hv
      exact optStrNoAmp_spec _ h1 _ hs
    · obtain ⟨sv, hs, rfl⟩ := Option.map_eq_some'.mp hv
      exact optStrNoAmp_spec _ h2 _ hs
    · obtain ⟨iv, _, rfl⟩ := Option.map_eq_some'.mp hv
      exact amp_not_mem_intToChars iv
    · obtain ⟨iv, _, rfl⟩ := Option.map_eq_some'.mp hv
      exact amp_not_mem_intToChars iv
    · obtain ⟨sv, hs, rfl⟩ := Option.map_eq_some'.mp hv
      exact optStrNoAmp_spec _ h3 _ hs
    · obtain ⟨nv, _, rfl⟩ := Option.map_eq_some'.mp hv
      exact amp_not_mem_natToChars nv
    · obtain ⟨nv, _, rfl⟩ := Option.map_eq_some'.mp hv
      exact amp_not_mem_natToChars nv
    · obtain ⟨tv, _, rfl⟩ := Option.map_eq_some'.mp hv
      exact fillType_amp_free tv
    · obtain ⟨tv, _, rfl⟩ := Option.map_eq_some'.mp hv
      exact marketType_amp_free tv
    · obtain ⟨tv, _, rfl⟩ := Option.map_eq_some'.mp hv
      exact sortDirection_amp_free tv

theorem order_extract_keys (p : OrderHistorySearchParams)
    (h1 : optStrNoAmp p.order_id = true) (h2 : optStrNoAmp p.strategy_id = true)
    (h3 : optStrNoAmp p.symbol = true) :
    extractKeysChars (queryChars (qparts (orderQFields p))) = orderSetKeys p := by
  rw [extractKeys_queryChars (orderQFields p) ?hkey ?hval, orderKeys_eq]
  case hkey =>
    intro f hf
    simp only [orderQFields, List.mem_cons, List.not_mem_nil, or_false] at hf
    rcases hf with rfl | rfl | rfl | rfl | rfl | rfl | rfl <;>
      exact ⟨by dsimp only; decide, by dsimp only; decide⟩
  case hval =>
    intro f hf v hv
    simp only [orderQFields, List.mem_cons, List.not_mem_nil, or_false] at hf
    rcases hf with rfl | rfl | rfl | rfl | rfl | rfl | rfl
    · obtain ⟨sv, hs, rfl⟩ := Option.map_eq_some'.mp hv
      exact optStrNoAmp_spec _ h1 _ hs
    · obtain ⟨sv, hs, rfl⟩ := Option.map_eq_some'.mp hv
      exact optStrNoAmp_spec _ h2 _ hs
    · obtain ⟨sv, hs, rfl⟩ := Option.map_eq_some'.mp hv
      exact optStrNoAmp_spec _ h3 _ hs
    · obtain ⟨nv, _, rfl⟩ := Option.map_eq_some'.mp hv
      exact amp_not_mem_natToChars nv
    · obtain ⟨nv, _, rfl⟩ := Option.map_eq_some'.mp hv
      exact amp_not_mem_natToChars nv
    · obtain ⟨tv, _, rfl⟩ := Option.map_eq_some'.mp hv
      exact marketType_amp_free tv
    · obtain ⟨tv, _, rfl⟩ := Option.map_eq_some'.mp hv
      exact sortDirection_amp_free tv

theorem strategy_extract_keys (p : StrategyHistorySearchParams)
    (h1 : optStrNoAmp p.strategy_id = true) (h2 : optStrNoAmp p.symbol = true) :
    extractKeysChars (queryChars (qparts (strategyQFields p))) = strategySetKeys p := by
  rw [extractKeys_queryChars (strategyQFields p) ?hkey ?hval, strategyKeys_eq]
  case hkey =>
    intro f hf
    simp only [strategyQFields, List.mem_cons, List.not_mem_nil, or_false] at hf
    rcases hf with rfl | rfl | rfl | rfl | rfl | rfl <;>
      exact ⟨by dsimp only; decide, by dsimp only; decide⟩
  case hval =>
    intro f hf v hv
    simp only [strategyQFields, List.mem_cons, List.not_mem_nil, or_false] at hf
    rcases hf with rfl | rfl | rfl | rfl | rfl | rfl
    · obtain ⟨sv, hs, rfl⟩ := Option.map_eq_some'.mp hv
      exact optStrNoAmp_spec _ h1 _ hs
    · obtain ⟨sv, hs, rfl⟩ := Option.map_eq_some'.mp hv
      exact optStrNoAmp_spec _ h2 _ hs
    · obtain ⟨nv, _, rfl⟩ := Option.map_eq_some'.mp hv
      exact amp_not_mem_natToChars nv
    · obtain ⟨nv, _, rfl⟩ := Option.map_eq_some'.mp hv
      exact amp_not_mem_natToChars nv
    · obtain ⟨tv, _, rfl⟩ := Option.map_eq_some'.mp hv
      exact marketType_amp_free tv
    · obtain ⟨tv, _, rfl⟩ := Option.map_eq_some'.mp hv
      exact sortDirection_amp_free tv

/-! ## Market metadata (src/rust/types/src/markets.rs) -/

/-- Modelled from the spec: a margin function is a named formula external
to this core (the Rust type lives in the crate root, outside src); its
content is irrelevant to every claim. -/
inductive MarginFunction
  | mk
deriving DecidableEq, Repr

inductive OrderBookState
  | Open
  | Closed
  | CancelOnly
  | LimitOnly
  | PostOnly
deriving DecidableEq, Repr

structure PriceBandMarkPrice where
  max_multiplier : Decimal
  min_multiplier : Decimal
deriving DecidableEq, Repr

structure PriceBandMeanPremium where
  tolerance_pct : Decimal
deriving DecidableEq, Repr

structure PriceFilters where
  min_price : Decimal
  max_price : Option Decimal
  tick_size : Decimal
  max_multiplier : Option Decimal
  min_multiplier : Option Decimal
  max_impact_multiplier : Option Decimal
  min_impact_multiplier : Option Decimal
  mean_mark_price_band : Option PriceBandMarkPrice
  mean_premium_band : Option PriceBandMeanPremium
  borrow_entry_fee_max_multiplier : Option Decimal
  borrow_entry_fee_min_multiplier : Option Decimal
deriving DecidableEq, Repr

structure QuantityFilters where
  min_quantity : Decimal
  max_quantity : Option Decimal
  step_size : Decimal
deriving DecidableEq, Repr

structure LeverageFilters where
  min_leverage : Decimal
  max_leverage : Decimal
  step_size : Decimal
deriving DecidableEq, Repr

structure MarketFilters where
  price : PriceFilters
  quantity : QuantityFilters
  leverage : Option LeverageFilters
deriving DecidableEq, Repr

/-- Market record; chrono timestamps are modelled as integer timestamps. -/
structure Market where
  symbol : String
  base_symbol : String
  quote_symbol : String
  market_type : MarketType
  filters : MarketFilters
  imf_function : Option MarginFunction
  mmf_function : Option MarginFunction
  funding_interval : Option Nat
  funding_rate_upper_bound : Option Decimal
  funding_rate_lower_bound : Option Decimal
  open_interest_limit : Option Decimal
  order_book_state : OrderBookState
  created_at : Int
deriving DecidableEq, Repr

/-- Decimal places this market supports on the price: the scale of the
tick size. -/
def Market.price_decimal_places (m : Market) : Nat :=
  m.filters.price.tick_size.scale

/-- Decimal places this market supports on the quantity: the scale of the
step size. -/
def Market.quantity_decimal_places (m : Market) : Nat :=
  m.filters.quantity.step_size.scale

/-- The market built by the unit tests of src/rust/types/src/markets.rs:
tick size 0.0001, step size 0.01. -/
def get_test_market : Market :=
  { symbol := "TEST_MARKET"
    base_symbol := "TEST"
    quote_symbol := "MARKET"
    market_type := MarketType.Spot
    filters :=
      { price :=
          { min_price := ⟨1, 4⟩
            max_price := none
            tick_size := ⟨1, 4⟩
            max_multiplier := none
            min_multiplier := none
            max_impact_multiplier := none
            min_impact_multiplier := none
            mean_mark_price_band := none
            mean_premium_band := none
            borrow_entry_fee_max_multiplier := none
            borrow_entry_fee_min_multiplier := none }
        quantity :=
          { min_quantity := ⟨1, 2⟩
            max_quantity := none
            step_size := ⟨1, 2⟩ }
        leverage := none }
    imf_function := none
    mmf_function := none
    funding_interval := none
    funding_rate_upper_bound := none
    funding_rate_lower_bound := none
    open_interest_limit := none
    order_book_state := OrderBookState.Open
    created_at := 0 }

/-! ## Order book depth (src/rust/types/src/markets.rs,
src/rust/client/src/routes/markets.rs) -/

structure OrderBookDepth where
  asks : List (Decimal × Decimal)
  bids : List (Decimal × Decimal)
  last_update_id : String
deriving DecidableEq, Repr

/-- Decodes a JSON list of decimal-string price and quantity pairs, in
input order, failing on the first malformed numeral. -/
def decodePairs : List (String × String) → Option (List (Decimal × Decimal))
  | [] => some []
  | pq :: rest =>
      match parseDecimal pq.1, parseDecimal pq.2, decodePairs rest with
      | some p, some q, some ds => some ((p, q) :: ds)
      | _, _, _ => none

/-- Decodes an order book depth response body. -/
def decodeOrderBookDepth (asks bids : List (String × String))
    (lastUpdateId : String) : Option OrderBookDepth :=
  match decodePairs asks, decodePairs bids with
  | some a, some b => some ⟨a, b, lastUpdateId⟩
  | _, _ => none

theorem decodePairs_forall2 (l : List (String × String))
    (ds : List (Decimal × Decimal)) (h : decodePairs l = some ds) :
    List.Forall₂
      (fun pq d => parseDecimal pq.1 = some d.1 ∧ parseDecimal pq.2 = some d.2)
      l ds := by
  induction l generalizing ds with
  | nil =>
      rw [decodePairs] at h
      cases h
      exact List.Forall₂.nil
  | cons pq rest ih =>
      rw [decodePairs] at h
      split at h
      · rename_i p q tail hp hq htail
        cases h
        exact List.Forall₂.cons ⟨hp, hq⟩ (ih tail htail)
      · cases h

/-! ## JSON objects and the serde decode boundary
(src/rust/types/src/history.rs, src/rust/types/src/strategies.rs)

A JSON object is a key-value list; field decoding follows the serde
derivations: a missing key yields the field default (None, except the
annotated limit and offset defaults), an explicit null yields None, a
well-typed value yields Some, anything else is a decode error. -/

inductive JVal
  | jnull
  | jbool (b : Bool)
  | jint (n : Int)
  | jstr (s : String)
deriving DecidableEq, Repr

abbrev JObj := List (String × JVal)

def jget (o : JObj) (k : String) : Option JVal :=
  (List.find? (fun p => p.1 == k) o).map (fun p => p.2)

def decStrOpt : JVal → Option (Option String)
  | JVal.jstr s => some (some s)
  | JVal.jnull => some none
  | _ => none

def decIntOpt : JVal → Option (Option Int)
  | JVal.jint n => some (some n)
  | JVal.jnull => some none
  | _ => none

def decU64Opt : JVal → Option (Option Nat)
  | JVal.jint n => if n < 0 then none else some (some n.toNat)
  | JVal.jnull => some none
  | _ => none

def decEnumOpt {α : Type} (fromWire : String → Option α) : JVal → Option (Option α)
  | JVal.jstr s => (fromWire s).map some
  | JVal.jnull => some none
  | _ => none

/-- Decodes one optional field: a missing key produces the serde default
for that field, otherwise the value must decode. -/
def getField {α : Type} (o : JObj) (k : String) (dec : JVal → Option (Option α))
    (dflt : Option α) : Option (Option α) :=
  match jget o k with
  | none => some dflt
  | some v => dec v

/-- serde Deserialize of FillHistorySearchParams: camelCase keys, limit
defaulting to Some 100 and offset to Some 0 when the key is absent. -/
def decodeFillParams (o : JObj) : Option FillHistorySearchParams :=
  Option.bind (getField o ("orderId") decStrOpt none) (fun order_id =>
  Option.bind (getField o ("strategyId") decStrOpt none) (fun strategy_id =>
  Option.bind (getField o ("from") decIntOpt none) (fun from_ =>
  Option.bind (getField o ("to") decIntOpt none) (fun to_ =>
  Option.bind (getField o ("symbol") decStrOpt none) (fun symbol =>
  Option.bind (getField o ("limit") decU64Opt (some 100)) (fun limit =>
  Option.bind (getField o ("offset") decU64Opt (some 0)) (fun offset =>
  Option.bind (getField o ("fillType") (decEnumOpt FillType.fromWire) none) (fun fill_type =>
  Option.bind (getField o ("marketType") (decEnumOpt MarketType.fromWire) none) (fun market_type =>
  Option.bind (getField o ("sortDirection") (decEnumOpt SortDirection.fromWire) none) (fun sort_direction =>
  some ⟨order_id, strategy_id, from_, to_, symbol, limit, offset, fill_type,
    market_type, sort_direction⟩))))))))))

/-- serde Deserialize of OrderHistorySearchParams. -/
def decodeOrderParams (o : JObj) : Option OrderHistorySearchParams :=
  Option.bind (getField o ("orderId") decStrOpt none) (fun order_id =>
  Option.bind (getField o ("strategyId") decStrOpt none) (fun strategy_id =>
  Option.bind (getField o ("symbol") decStrOpt none) (fun symbol =>
  Option.bind (getField o ("limit") decU64Opt (some 100)) (fun limit =>
  Option.bind (getField o ("offset") decU64Opt (some 0)) (fun offset =>
  Option.bind (getField o ("marketType") (decEnumOpt MarketType.fromWire) none) (fun market_type =>
  Option.bind (getField o ("sortDirection") (decEnumOpt SortDirection.fromWire) none) (fun sort_direction =>
  some ⟨order_id, strategy_id, symbol, limit, offset, market_type,
    sort_direction⟩)))))))

/-- serde Deserialize of StrategyHistorySearchParams. -/
def decodeStrategyParams (o : JObj) : Option StrategyHistorySearchParams :=
  Option.bind (getField o ("strategyId") decStrOpt none) (fun strategy_id =>
  Option.bind (getField o ("symbol") decStrOpt none) (fun symbol =>
  Option.bind (getField o ("limit") decU64Opt (some 100)) (fun limit =>
  Option.bind (getField o ("offset") decU64Opt (some 0)) (fun offset =>
  Option.bind (getField o ("marketType") (decEnumOpt MarketType.fromWire) none) (fun market_type =>
  Option.bind (getField o ("sortDirection") (decEnumOpt SortDirection.fromWire) none) (fun sort_direction =>
  some ⟨strategy_id, symbol, limit, offset, market_type, sort_direction⟩))))))

/-- One serialized optional field: unset fields are skipped entirely
(serde skip_serializing_if). -/
def jentry {α : Type} (k : String) (f : α → JVal) (o : Option α) : JObj :=
  match o with
  | some v => [(k, f v)]
  | none => []

/-- serde Serialize of FillHistorySearchParams: camelCase keys, unset
fields skipped entirely. -/
def encodeFillJson (p : FillHistorySearchParams) : JObj :=
  jentry ("orderId") JVal.jstr p.order_id ++
    jentry ("strategyId") JVal.jstr p.strategy_id ++
    jentry ("from") JVal.jint p.from_ ++
    jentry ("to") JVal.jint p.to_ ++
    jentry ("symbol") JVal.jstr p.symbol ++
    jentry ("limit") (fun v => JVal.jint (Int.ofNat v)) p.limit ++
    jentry ("offset") (fun v => JVal.jint (Int.ofNat v)) p.offset ++
    jentry ("fillType") (fun t => JVal.jstr (FillType.toWire t)) p.fill_type ++
    jentry ("marketType") (fun t => JVal.jstr (MarketType.toWire t)) p.market_type ++
    jentry ("sortDirection") (fun t => JVal.jstr (SortDirection.toWire t)) p.sort_direction

/-- serde Serialize of OrderHistorySearchParams. -/
def encodeOrderJson (p : OrderHistorySearchParams) : JObj :=
  jentry ("orderId") JVal.jstr p.order_id ++
    jentry ("strategyId") JVal.jstr p.strategy_id ++
    jentry ("symbol") JVal.jstr p.symbol ++
    jentry ("limit") (fun v => JVal.jint (Int.ofNat v)) p.limit ++
    jentry ("offset") (fun v => JVal.jint (Int.ofNat v)) p.offset ++
    jentry ("marketType") (fun t => JVal.jstr (MarketType.toWire t)) p.market_type ++
    jentry ("sortDirection") (fun t => JVal.jstr (SortDirection.toWire t)) p.sort_direction

/-- serde Serialize of StrategyHistorySearchParams. -/
def encodeStrategyJson (p : StrategyHistorySearchParams) : JObj :=
  jentry ("strategyId") JVal.jstr p.strategy_id ++
    jentry ("symbol") JVal.jstr p.symbol ++
    jentry ("limit") (fun v => JVal.jint (Int.ofNat v)) p.limit ++
    jentry ("offset") (fun v => JVal.jint (Int.ofNat v)) p.offset ++
    jentry ("marketType") (fun t => JVal.jstr (MarketType.toWire t)) p.market_type ++
    jentry ("sortDirection") (fun t => JVal.jstr (SortDirection.toWire t)) p.sort_direction

theorem map_fst_jentry {α : Type} (k : String) (f : α → JVal) (o : Option α) :
    (jentry k f o).map Prod.fst = if o.isSome then [k] else [] := by
  cases o <;> rfl

theorem mem_if_singleton (k k' : String) (c : Prop) [Decidable c] :
    (k ∈ if c then [k'] else []) ↔ c ∧ k = k' := by
  split <;> simp_all

/-! ## serde rename_all camelCase rule -/

/-- The serde camelCase rename rule on a snake_case identifier: drop each
underscore and capitalize the following letter. -/
def snakeToCamel : List Char → List Char
  | [] => []
  | '_' :: c :: rest => c.toUpper :: snakeToCamel rest
  | c :: rest => c :: snakeToCamel rest

def camelKey (s : String) : String :=
  ⟨snakeToCamel s.data⟩

/-- Declared field names of FillHistorySearchParams, in order. -/
def fillFieldNames : List String :=
  [("order_id"), ("strategy_id"), ("from"), ("to"), ("symbol"), ("limit"),
   ("offset"), ("fill_type"), ("market_type"), ("sort_direction")]

/-- The JSON object keys of FillHistorySearchParams under
serde rename_all camelCase. -/
def fillJsonKeys : List String :=
  fillFieldNames.map camelKey

/-- The query-string keys get_fill_history emits, in push order. -/
def fillQueryKeys : List String :=
  (fillQFields ⟨none, none, none, none, none, none, none, none, none, none⟩).map
    (fun f => ⟨f.key⟩)

/-! ## Claim theorems -/

/-- The all-unset fill history search parameters (Default derive). -/
def fillParamsNone : FillHistorySearchParams :=
  ⟨none, none, none, none, none, none, none, none, none, none⟩

/-- The all-unset order history search parameters (Default derive). -/
def orderParamsNone : OrderHistorySearchParams :=
  ⟨none, none, none, none, none, none, none⟩

/-- The all-unset strategy history search parameters (Default derive). -/
def strategyParamsNone : StrategyHistorySearchParams :=
  ⟨none, none, none, none, none, none⟩

/-- C2: calling get_fill_history with only symbol SOL_USDC and limit 50 set
produces exactly the query string ?symbol=SOL_USDC&limit=50, with symbol
before limit, and no other key of the parameter set present. -/
theorem claim2_fill_query_concrete :
    fillQueryString ⟨none, none, none, none, some ("SOL_USDC"), some 50,
      none, none, none, none⟩ = "?symbol=SOL_USDC&limit=50" ∧
    extractKeysChars ("?symbol=SOL_USDC&limit=50").data =
      [("symbol").data, ("limit").data] :=
  ⟨by decide, by decide⟩

/-- C4: price_decimal_places is the scale of the tick size and
quantity_decimal_places the scale of the step size; a tick size parsed from
0.0001 yields 4 decimal places and a step size parsed from 0.01 yields 2. -/
theorem claim4_market_decimal_places :
    (∀ m : Market, m.price_decimal_places = m.filters.price.tick_size.scale) ∧
    (∀ m : Market, m.quantity_decimal_places = m.filters.quantity.step_size.scale) ∧
    (∀ m : Market, parseDecimal ("0.0001") = some m.filters.price.tick_size →
      m.price_decimal_places = 4) ∧
    (∀ m : Market, parseDecimal ("0.01") = some m.filters.quantity.step_size →
      m.quantity_decimal_places = 2) := by
  refine ⟨fun m => rfl, fun m => rfl, fun m h => ?_, fun m h => ?_⟩
  · rw [show parseDecimal ("0.0001") = some ⟨1, 4⟩ from by decide] at h
    have h2 := Option.some.inj h
    rw [Market.price_decimal_places, ← h2]
  · rw [show parseDecimal ("0.01") = some ⟨1, 2⟩ from by decide] at h
    have h2 := Option.some.inj h
    rw [Market.quantity_decimal_places, ← h2]

/-- C4 witness: the unit-test market with tick size 0.0001 and step size
0.01 has 4 price and 2 quantity decimal places. -/
theorem claim4_market_decimal_places_witness :
    get_test_market.price_decimal_places = 4 ∧
      get_test_market.quantity_decimal_places = 2 :=
  ⟨claim4_market_decimal_places.2.2.1 get_test_market (by decide),
   claim4_market_decimal_places.2.2.2 get_test_market (by decide)⟩

/-- C5: encoding a search-parameter structure with every optional field unset
yields the empty query string: the URL is exactly the base URL plus the
endpoint path, with nothing appended, and the paths contain no question mark
and no trailing separator. -/
theorem claim5_all_unset_empty_query :
    fillQueryString fillParamsNone = "" ∧
    orderQueryString orderParamsNone = "" ∧
    strategyQueryString strategyParamsNone = "" ∧
    (∀ base : String,
      get_fill_history_url base fillParamsNone = base ++ API_FILL_HISTORY) ∧
    (∀ base : String,
      get_order_history_url base orderParamsNone = base ++ API_ORDER_HISTORY) ∧
    (∀ base : String,
      get_strategy_history_url base strategyParamsNone = base ++ API_STRATEGY_HISTORY) ∧
    '?' ∉ API_FILL_HISTORY.data ∧ '?' ∉ API_ORDER_HISTORY.data ∧
    '?' ∉ API_STRATEGY_HISTORY.data := by
  refine ⟨by decide, by decide, by decide, ?_, ?_, ?_, by decide, by decide, by decide⟩
  · intro base
    rw [get_fill_history_url, show fillQueryString fillParamsNone = "" from by decide]
    simp
  · intro base
    rw [get_order_history_url, show orderQueryString orderParamsNone = "" from by decide]
    simp
  · intro base
    rw [get_strategy_history_url,
      show strategyQueryString strategyParamsNone = "" from by decide]
    simp

/-- C9: get_open_future_positions with no symbol requests exactly the base
URL plus the position path with nothing appended (in particular the appended
path carries no question mark and no query component), while a given symbol
appends exactly the mandatory symbol query; that query is the only
difference between the two URLs. -/
theorem claim9_future_positions_url :
    (∀ base : String,
      get_open_future_positions_url base none = base ++ API_FUTURES_POSITION) ∧
    '?' ∉ API_FUTURES_POSITION.data ∧
    (∀ base : String, '?' ∉ base.data →
      '?' ∉ (get_open_future_positions_url base none).data) ∧
    (∀ (base s : String), get_open_future_positions_url base (some s) =
      base ++ API_FUTURES_POSITION ++ ("?symbol=" ++ s)) ∧
    (∀ (base s : String), get_open_future_positions_url base (some s) =
      get_open_future_positions_url base none ++ ("?symbol=" ++ s)) := by
  refine ⟨?_, by decide, ?_, ?_, ?_⟩
  · intro base
    rw [get_open_future_positions_url]
    simp
  · intro base hb hmem
    have hred : get_open_future_positions_url base none =
        base ++ (API_FUTURES_POSITION ++ "") := by
      rw [get_open_future_positions_url, String.append_assoc]
    rw [hred, String.data_append] at hmem
    rcases List.mem_append.mp hmem with h | h
    · exact hb h
    · exact absurd h (by decide)
  · intro base s
    rfl
  · intro base s
    rw [get_open_future_positions_url, get_open_future_positions_url]
    simp

/-- C9 witness: against a concrete base URL without a question mark, the
no-symbol position URL carries no question mark. -/
theorem claim9_future_positions_url_witness :
    '?' ∉ (get_open_future_positions_url ("https://api.example.com") none).data :=
  claim9_future_positions_url.2.2.1 ("https://api.example.com") (by decide)

/-- C10: the history query encoders emit snake_case keys, which differ from
the camelCase keys the same structure uses in JSON (order_id versus orderId),
while the account max-order endpoint emits camelCase query keys such as
reduceOnly, autoBorrow and autoLendRedeem. -/
theorem claim10_query_vs_json_keys :
    fillQueryKeys = [("order_id"), ("strategy_id"), ("from"), ("to"),
      ("symbol"), ("limit"), ("offset"), ("fill_type"), ("market_type"),
      ("sort_direction")] ∧
    fillJsonKeys = [("orderId"), ("strategyId"), ("from"), ("to"), ("symbol"),
      ("limit"), ("offset"), ("fillType"), ("marketType"), ("sortDirection")] ∧
    ("order_id" : String) ≠ ("orderId") ∧
    get_account_max_order_quantity_query ("SOL_USDC") ("Bid") none (some true)
      (some true) none (some true) =
      "?symbol=SOL_USDC&side=Bid&reduceOnly=true&autoBorrow=true&autoLendRedeem=true" :=
  ⟨by decide, by decide, by decide, by decide⟩

/-- C3: for every wire enumeration, decoding the encoding of a variant
yields that variant, encoding the decoding of a canonical wire string
yields the string back, and decoding any non-canonical string fails with
an error rather than a default variant. -/
theorem claim3_enum_wire_roundtrip :
    (∀ v : FillType, FillType.fromWire (FillType.toWire v) = some v) ∧
    (∀ (s : String) (v : FillType), FillType.fromWire s = some v →
      FillType.toWire v = s) ∧
    (∀ s : String, (∀ v : FillType, FillType.toWire v ≠ s) →
      FillType.fromWire s = none) ∧
    (∀ v : SystemOrderType, SystemOrderType.fromWire (SystemOrderType.toWire v) = some v) ∧
    (∀ (s : String) (v : SystemOrderType), SystemOrderType.fromWire s = some v →
      SystemOrderType.toWire v = s) ∧
    (∀ s : String, (∀ v : SystemOrderType, SystemOrderType.toWire v ≠ s) →
      SystemOrderType.fromWire s = none) ∧
    (∀ v : OrderExpiryReason, OrderExpiryReason.fromWire (OrderExpiryReason.toWire v) = some v) ∧
    (∀ (s : String) (v : OrderExpiryReason), OrderExpiryReason.fromWire s = some v →
      OrderExpiryReason.toWire v = s) ∧
    (∀ s : String, (∀ v : OrderExpiryReason, OrderExpiryReason.toWire v ≠ s) →
      OrderExpiryReason.fromWire s = none) ∧
    (∀ v : MarketType, MarketType.fromWire (MarketType.toWire v) = some v) ∧
    (∀ (s : String) (v : MarketType), MarketType.fromWire s = some v →
      MarketType.toWire v = s) ∧
    (∀ s : String, (∀ v : MarketType, MarketType.toWire v ≠ s) →
      MarketType.fromWire s = none) ∧
    (∀ v : SortDirection, SortDirection.fromWire (SortDirection.toWire v) = some v) ∧
    (∀ (s : String) (v : SortDirection), SortDirection.fromWire s = some v →
      SortDirection.toWire v = s) ∧
    (∀ s : String, (∀ v : SortDirection, SortDirection.toWire v ≠ s) →
      SortDirection.fromWire s = none) := by
  refine ⟨fun v => by cases v <;> decide,
    fun s v h => decodeTable_sound _ FillType.toWire fillType_wire_sound s v h,
    fun s hs => decodeTable_unknown _ FillType.toWire fillType_wire_sound s hs,
    fun v => by cases v <;> decide,
    fun s v h => decodeTable_sound _ SystemOrderType.toWire systemOrderType_wire_sound s v h,
    fun s hs => decodeTable_unknown _ SystemOrderType.toWire systemOrderType_wire_sound s hs,
    fun v => by cases v <;> decide,
    fun s v h => decodeTable_sound _ OrderExpiryReason.toWire orderExpiryReason_wire_sound s v h,
    fun s hs => decodeTable_unknown _ OrderExpiryReason.toWire orderExpiryReason_wire_sound s hs,
    fun v => by cases v <;> decide,
    fun s v h => decodeTable_sound _ MarketType.toWire marketType_wire_sound s v h,
    fun s hs => decodeTable_unknown _ MarketType.toWire marketType_wire_sound s hs,
    fun v => by cases v <;> decide,
    fun s v h => decodeTable_sound _ SortDirection.toWire sortDirection_wire_sound s v h,
    fun s hs => decodeTable_unknown _ SortDirection.toWire sortDirection_wire_sound s hs⟩

/-- C3 witness: concrete round trips and a concrete unknown-string failure
for each enumeration family. -/
theorem claim3_enum_wire_roundtrip_witness :
    FillType.toWire FillType.Adl = "Adl" ∧
    FillType.fromWire ("NotAVariant") = none ∧
    SystemOrderType.toWire SystemOrderType.FutureExpiry = "FutureExpiry" ∧
    SystemOrderType.fromWire ("NotAVariant") = none ∧
    OrderExpiryReason.toWire OrderExpiryReason.FillOrKill = "FillOrKill" ∧
    OrderExpiryReason.fromWire ("NotAVariant") = none ∧
    MarketType.toWire MarketType.Spot = "SPOT" ∧
    MarketType.fromWire ("Spot") = none ∧
    SortDirection.toWire SortDirection.Asc = "Asc" ∧
    SortDirection.fromWire ("ASC") = none :=
  ⟨claim3_enum_wire_roundtrip.2.1 ("Adl") FillType.Adl (by decide),
   claim3_enum_wire_roundtrip.2.2.1 ("NotAVariant") (by decide),
   claim3_enum_wire_roundtrip.2.2.2.2.1 ("FutureExpiry") SystemOrderType.FutureExpiry (by decide),
   claim3_enum_wire_roundtrip.2.2.2.2.2.1 ("NotAVariant") (by decide),
   claim3_enum_wire_roundtrip.2.2.2.2.2.2.2.1 ("FillOrKill") OrderExpiryReason.FillOrKill (by decide),
   claim3_enum_wire_roundtrip.2.2.2.2.2.2.2.2.1 ("NotAVariant") (by decide),
   claim3_enum_wire_roundtrip.2.2.2.2.2.2.2.2.2.2.1 ("SPOT") MarketType.Spot (by decide),
   claim3_enum_wire_roundtrip.2.2.2.2.2.2.2.2.2.2.2.1 ("Spot") (by decide),
   claim3_enum_wire_roundtrip.2.2.2.2.2.2.2.2.2.2.2.2.2.1 ("Asc") SortDirection.Asc (by decide),
   claim3_enum_wire_roundtrip.2.2.2.2.2.2.2.2.2.2.2.2.2.2 ("ASC") (by decide)⟩

/-- C7: parsing a valid decimal string and re-serializing preserves the
count of fractional digits exactly: the parsed scale is the fractional
digit count of the input and the rendering emits that many fractional
digits, so trailing zeros survive and nothing is added or truncated. -/
theorem claim7_decimal_scale_roundtrip (s : String) (d : Decimal)
    (h : parseDecimal s = some d) :
    d.scale = fracCountChars s.data ∧
      fracCountChars (serializeDecimal d).data = fracCountChars s.data := by
  have h1 := parseDecimal_scale s d h
  refine ⟨h1.symm, ?_⟩
  rw [show (serializeDecimal d).data = serializeChars d from rfl]
  rw [serializeChars_frac, h1]

/-- C7 witness: the trailing zero of 0.0100 survives the round trip: four
fractional digits in, four out. -/
theorem claim7_decimal_scale_roundtrip_witness :
    (⟨100, 4⟩ : Decimal).scale = fracCountChars ("0.0100").data ∧
      fracCountChars (serializeDecimal ⟨100, 4⟩).data = fracCountChars ("0.0100").data :=
  claim7_decimal_scale_roundtrip ("0.0100") ⟨100, 4⟩ (by decide)

/-- C8: get_order_book_depth on symbol BTC_USDC against the example base URL
requests exactly the documented URL, and decoding a response body whose asks
and bids are decimal-string pairs yields lists in input order whose entries
are the parses of the corresponding inputs, each preserving the input's
fractional precision when re-rendered. -/
theorem claim8_depth_url_decode :
    get_order_book_depth_url ("https://api.example.com") ("BTC_USDC") =
      "https://api.example.com/api/v1/depth?symbol=BTC_USDC" ∧
    (∀ (asks bids : List (String × String)) (u : String) (d : OrderBookDepth),
      decodeOrderBookDepth asks bids u = some d →
      d.last_update_id = u ∧
      List.Forall₂ (fun pq dd => parseDecimal pq.1 = some dd.1 ∧
        parseDecimal pq.2 = some dd.2) asks d.asks ∧
      List.Forall₂ (fun pq dd => parseDecimal pq.1 = some dd.1 ∧
        parseDecimal pq.2 = some dd.2) bids d.bids) ∧
    (∀ (s : String) (dd : Decimal), parseDecimal s = some dd →
      fracCountChars (serializeDecimal dd).data = fracCountChars s.data) := by
  refine ⟨by decide, ?_, ?_⟩
  · intro asks bids u d h
    rw [decodeOrderBookDepth] at h
    split at h
    · rename_i a b ha hb
      cases h
      exact ⟨rfl, decodePairs_forall2 _ _ ha, decodePairs_forall2 _ _ hb⟩
    · cases h
  · intro s dd h
    rw [show (serializeDecimal dd).data = serializeChars dd from rfl]
    rw [serializeChars_frac, parseDecimal_scale s dd h]

/-- C8 witness: a concrete two-level book decodes in order with exact
precision. -/
theorem claim8_depth_url_decode_witness :
    decodeOrderBookDepth [(("50000.10"), ("1.50"))] [(("49999.9"), ("2.00"))]
        ("u1") = some ⟨[(⟨5000010, 2⟩, ⟨150, 2⟩)], [(⟨499999, 1⟩, ⟨200, 2⟩)], "u1"⟩ ∧
    ((⟨[(⟨5000010, 2⟩, ⟨150, 2⟩)], [(⟨499999, 1⟩, ⟨200, 2⟩)],
        ("u1")⟩ : OrderBookDepth)).last_update_id = "u1" ∧
    fracCountChars (serializeDecimal ⟨5000010, 2⟩).data = fracCountChars ("50000.10").data :=
  ⟨by decide,
   (claim8_depth_url_decode.2.1 [(("50000.10"), ("1.50"))] [(("49999.9"), ("2.00"))]
      ("u1") _ (by decide)).1,
   claim8_depth_url_decode.2.2 ("50000.10") ⟨5000010, 2⟩ (by decide)⟩

/-- C1 (amended): for each search-parameter structure all of whose set
string-valued fields are free of ampersands, the server-observed key list of
the encoded query string is exactly the keys of the fields the caller set, in
that endpoint's declared field order — no extra keys, no omitted set fields,
unset fields never rendered at all — and encoding the same structure twice
yields the identical string. -/
theorem claim1_amended_query_keys :
    (∀ p : FillHistorySearchParams,
      optStrNoAmp p.order_id = true → optStrNoAmp p.strategy_id = true →
      optStrNoAmp p.symbol = true →
      extractKeysChars (fillQueryString p).data = fillSetKeys p) ∧
    (∀ p : OrderHistorySearchParams,
      optStrNoAmp p.order_id = true → optStrNoAmp p.strategy_id = true →
      optStrNoAmp p.symbol = true →
      extractKeysChars (orderQueryString p).data = orderSetKeys p) ∧
    (∀ p : StrategyHistorySearchParams,
      optStrNoAmp p.strategy_id = true → optStrNoAmp p.symbol = true →
      extractKeysChars (strategyQueryString p).data = strategySetKeys p) ∧
    (∀ p : FillHistorySearchParams, fillQueryString p = fillQueryString p) ∧
    (∀ p : OrderHistorySearchParams, orderQueryString p = orderQueryString p) ∧
    (∀ p : StrategyHistorySearchParams, strategyQueryString p = strategyQueryString p) :=
  ⟨fun p h1 h2 h3 => fill_extract_keys p h1 h2 h3,
   fun p h1 h2 h3 => order_extract_keys p h1 h2 h3,
   fun p h1 h2 => strategy_extract_keys p h1 h2,
   fun _ => rfl, fun _ => rfl, fun _ => rfl⟩

/-- C1 counterexample: the encoders do not escape values, so with symbol set
to the string a&b the server-observed key set of the encoded query gains a
key b that the caller never set, refuting the unconditional claim. -/
theorem claim1_counterexample :
    extractKeysChars (fillQueryString ⟨none, none, none, none, some ("a&b"),
        none, none, none, none, none⟩).data ≠
      fillSetKeys ⟨none, none, none, none, some ("a&b"),
        none, none, none, none, none⟩ := by
  decide

/-- C1 witness: a realistic fill history parameter set satisfies the
ampersand-free side condition and its observed keys are exactly the set
fields in declared order. -/
theorem claim1_amended_query_keys_witness :
    extractKeysChars (fillQueryString ⟨none, none, none, none,
        some ("SOL_USDC"), some 50, none, none, none, none⟩).data =
      fillSetKeys ⟨none, none, none, none, some ("SOL_USDC"), some 50,
        none, none, none, none⟩ :=
  claim1_amended_query_keys.1 ⟨none, none, none, none, some ("SOL_USDC"),
    some 50, none, none, none, none⟩ (by decide) (by decide) (by decide)

/-- C6: decoding a search-parameter structure from a JSON object that omits
the limit and offset keys yields limit Some 100 and offset Some 0, for the
fill, order and strategy history parameter sets alike, while serializing a
structure whose limit and offset are unset emits neither key: the defaults
live only at the decode boundary and are never forced into the caller's
structure. -/
theorem claim6_decode_defaults :
    (∀ (o : JObj) (p : FillHistorySearchParams), jget o ("limit") = none →
      jget o ("offset") = none → decodeFillParams o = some p →
      p.limit = some 100 ∧ p.offset = some 0) ∧
    (∀ (o : JObj) (p : OrderHistorySearchParams), jget o ("limit") = none →
      jget o ("offset") = none → decodeOrderParams o = some p →
      p.limit = some 100 ∧ p.offset = some 0) ∧
    (∀ (o : JObj) (p : StrategyHistorySearchParams), jget o ("limit") = none →
      jget o ("offset") = none → decodeStrategyParams o = some p →
      p.limit = some 100 ∧ p.offset = some 0) ∧
    (∀ p : FillHistorySearchParams, p.limit = none → p.offset = none →
      ("limit") ∉ (encodeFillJson p).map Prod.fst ∧
      ("offset") ∉ (encodeFillJson p).map Prod.fst) ∧
    (∀ p : OrderHistorySearchParams, p.limit = none → p.offset = none →
      ("limit") ∉ (encodeOrderJson p).map Prod.fst ∧
      ("offset") ∉ (encodeOrderJson p).map Prod.fst) ∧
    (∀ p : StrategyHistorySearchParams, p.limit = none → p.offset = none →
      ("limit") ∉ (encodeStrategyJson p).map Prod.fst ∧
      ("offset") ∉ (encodeStrategyJson p).map Prod.fst) := by
  refine ⟨?_, ?_, ?_, ?_, ?_, ?_⟩
  · intro o p hL hO h
    rw [decodeFillParams] at h
    simp only [getField, hL, hO, Option.bind_eq_some, Option.some_bind,
      Option.some.injEq] at h
    obtain ⟨a1, -, a2, -, a3, -, a4, -, a5, -, a8, -, a9, -, a10, -, hp⟩ := h
    subst hp
    exact ⟨rfl, rfl⟩
  · intro o p hL hO h
    rw [decodeOrderParams] at h
    simp only [getField, hL, hO, Option.bind_eq_some, Option.some_bind,
      Option.some.injEq] at h
    obtain ⟨a1, -, a2, -, a3, -, a6, -, a7, -, hp⟩ := h
    subst hp
    exact ⟨rfl, rfl⟩
  · intro o p hL hO h
    rw [decodeStrategyParams] at h
    simp only [getField, hL, hO, Option.bind_eq_some, Option.some_bind,
      Option.some.injEq] at h
    obtain ⟨a1, -, a2, -, a5, -, a6, -, hp⟩ := h
    subst hp
    exact ⟨rfl, rfl⟩
  · intro p hL hO
    constructor <;>
      · intro hmem
        simp only [encodeFillJson, List.map_append, map_fst_jentry, hL, hO,
          List.mem_append, mem_if_singleton] at hmem
        simp at hmem
  · intro p hL hO
    constructor <;>
      · intro hmem
        simp only [encodeOrderJson, List.map_append, map_fst_jentry, hL, hO,
          List.mem_append, mem_if_singleton] at hmem
        simp at hmem
  · intro p hL hO
    constructor <;>
      · intro hmem
        simp only [encodeStrategyJson, List.map_append, map_fst_jentry, hL, hO,
          List.mem_append, mem_if_singleton] at hmem
        simp at hmem

/-- C6 witness: the empty JSON object decodes to limit 100 and offset 0, and
the all-unset structure serializes without limit or offset keys. -/
theorem claim6_decode_defaults_witness :
    ((⟨none, none, none, none, none, some 100, some 0, none, none,
        none⟩ : FillHistorySearchParams).limit = some 100 ∧
      (⟨none, none, none, none, none, some 100, some 0, none, none,
        none⟩ : FillHistorySearchParams).offset = some 0) ∧
    (("limit") ∉ (encodeFillJson fillParamsNone).map Prod.fst ∧
      ("offset") ∉ (encodeFillJson fillParamsNone).map Prod.fst) :=
  ⟨claim6_decode_defaults.1 [] _ (by decide) (by decide) (by decide),
   claim6_decode_defaults.2.2.2.1 fillParamsNone rfl rfl⟩

end Bpx
